import Mathlib

/-!
Verification of the phosphor-keymap key-sequence resolution engine.

This file gives a shallow embedding of the repository's core modules:

* `Keystrokes` models `src/keystrokes.ts` (the dash-separated keystroke
  normalizer used by `src/manager.ts`): the key-code table, the keystroke
  derived from a keydown event, and `normalizeKeystroke`.
* `Keyboard` models `src/keyboard.ts` (the layout-aware, space-separated
  normalizer variant).
* `Manager` models `src/manager.ts` (`KeymapManager`): binding
  registration, sequence matching, the pending-chord state machine and
  specificity-based dispatch.

JavaScript exceptions are modelled with `Option`/`Except`; the DOM
propagation chain of an event is modelled as the list of element
identifiers from the event target upward; object reference identity of
registered bindings is modelled with an allocation counter (`oid`).
-/

namespace Keystrokes

/-- The `KEY_CODE_MAP` table from src/keystrokes.ts: key code to key name. -/
def KEY_CODE_MAP : List (Nat × String) := [
  (8, "backspace"), (9, "tab"), (13, "enter"), (16, "shift"), (17, "ctrl"),
  (18, "alt"), (19, "pause"), (20, "capslock"), (27, "esc"), (32, "space"),
  (33, "pageup"), (34, "pagedown"), (35, "end"), (36, "home"), (37, "left"),
  (38, "up"), (39, "right"), (40, "down"), (45, "insert"), (46, "delete"),
  (48, "0"), (49, "1"), (50, "2"), (51, "3"), (52, "4"), (53, "5"), (54, "6"),
  (55, "7"), (56, "8"), (57, "9"), (59, ";"), (61, "="),
  (65, "a"), (66, "b"), (67, "c"), (68, "d"), (69, "e"), (70, "f"), (71, "g"),
  (72, "h"), (73, "i"), (74, "j"), (75, "k"), (76, "l"), (77, "m"), (78, "n"),
  (79, "o"), (80, "p"), (81, "q"), (82, "r"), (83, "s"), (84, "t"), (85, "u"),
  (86, "v"), (87, "w"), (88, "x"), (89, "y"), (90, "z"),
  (91, "meta"), (92, "meta"), (93, "contextmenu"),
  (96, "numpad0"), (97, "numpad1"), (98, "numpad2"), (99, "numpad3"),
  (100, "numpad4"), (101, "numpad5"), (102, "numpad6"), (103, "numpad7"),
  (104, "numpad8"), (105, "numpad9"), (106, "multiply"), (107, "add"),
  (109, "subtract"), (110, "decimal"), (111, "divide"),
  (112, "f1"), (113, "f2"), (114, "f3"), (115, "f4"), (116, "f5"),
  (117, "f6"), (118, "f7"), (119, "f8"), (120, "f9"), (121, "f10"),
  (122, "f11"), (123, "f12"), (124, "f13"), (125, "f14"), (126, "f15"),
  (144, "numlock"), (145, "scrolllock"),
  (173, "-"), (186, ";"), (187, "="), (188, ","), (189, "-"), (190, "."),
  (191, "/"), (192, "`"), (219, "["), (220, "\\"), (221, "]"), (222, "\x27"),
  (224, "meta")]

/-- The domain of `KEY_CODE_MAP_INV`: all key names of the table. -/
def KEYS : List String := KEY_CODE_MAP.map Prod.snd

/-- `keyForKeyCode` from src/keystrokes.ts: key name for a code, or `""`. -/
def keyForKeyCode (code : Nat) : String :=
  match KEY_CODE_MAP.lookup code with
  | some s => s
  | none => ""

end Keystrokes

/-- A keydown event: modifier flags, key code, and the DOM propagation
chain modelled as the list of element ids from `event.target` upward
(`path.head?` is the target); `currentTarget` is where the listener sits. -/
structure KeyEvent where
  ctrlKey : Bool
  altKey : Bool
  shiftKey : Bool
  metaKey : Bool
  keyCode : Nat
  path : List Nat
  currentTarget : Nat
deriving DecidableEq, Repr

namespace Keystrokes

/-- `keystrokeForKeydownEvent` from src/keystrokes.ts. -/
def keystrokeForKeydownEvent (ev : KeyEvent) : String :=
  (if ev.ctrlKey then "ctrl-" else "") ++
  (if ev.altKey then "alt-" else "") ++
  (if ev.shiftKey then "shift-" else "") ++
  (if ev.metaKey then "meta-" else "") ++
  keyForKeyCode ev.keyCode

/-- ASCII lower-casing, modelling JavaScript `toLowerCase`. -/
def strLower (s : String) : String := ⟨s.data.map Char.toLower⟩

/-- Emit the accumulated (reversed) run of non-dash characters, if any. -/
def tokFlush (acc : List Char) : List String :=
  if acc.isEmpty then [] else [String.mk acc.reverse]

/-- Tokenizer worker over the character list, accumulating the current
run of non-dash characters in reverse. -/
def tokAux : List Char → List Char → List String
  | [], acc => tokFlush acc
  | c :: cs, acc =>
    if c = '-' then tokFlush acc ++ "-" :: tokAux cs []
    else tokAux cs (c :: acc)

/-- `keystroke.split(/(-)/g).filter(s => !!s)`: every maximal run of
non-dash characters is a token, and every dash is the token `"-"`. -/
def tokenize (s : String) : List String := tokAux s.data []

/-- The mutable locals of the `normalizeKeystroke` loop in
src/keystrokes.ts: the primary key seen so far, the separator flag, and
one flag per modifier. -/
structure NState where
  key : String
  sep : Bool
  alt : Bool
  ctrl : Bool
  meta : Bool
  shift : Bool
deriving DecidableEq, Repr

/-- The loop state at entry of the token loop. -/
def initNState : NState := ⟨"", false, false, false, false, false⟩

/-- `alt || ctrl || meta || shift` of the loop state. -/
def hasMod (st : NState) : Bool := st.alt || st.ctrl || st.meta || st.shift

/-- The token loop of `normalizeKeystroke` (src/keystrokes.ts lines
64-107). `single` records whether the whole token list has exactly one
element (the `n === 1` test); a thrown error is `none`. -/
def runLoop (single : Bool) : NState → List String → Option NState
  | st, [] => some st
  | st, t :: rest =>
    if t = "-" then
      if st.key ≠ "" then none
      else if rest.isEmpty && (single || st.sep) then
        runLoop single { st with key := "-" } rest
      else if !st.sep && hasMod st then
        runLoop single { st with sep := true } rest
      else none
    else if t = "alt" then
      if st.alt || st.key ≠ "" then none
      else runLoop single { st with alt := true, sep := false } rest
    else if t = "ctrl" then
      if st.ctrl || st.key ≠ "" then none
      else runLoop single { st with ctrl := true, sep := false } rest
    else if t = "meta" then
      if st.meta || st.key ≠ "" then none
      else runLoop single { st with meta := true, sep := false } rest
    else if t = "shift" then
      if st.shift || st.key ≠ "" then none
      else runLoop single { st with shift := true, sep := false } rest
    else
      if st.key ≠ "" || !(KEYS.contains t) then none
      else runLoop single { st with key := t, sep := false } rest

/-- The canonical modifier prefix built at src/keystrokes.ts lines
111-115 (order: ctrl, alt, shift, meta). -/
def modString (ctrl alt shift meta : Bool) : String :=
  (if ctrl then "ctrl-" else "") ++
  (if alt then "alt-" else "") ++
  (if shift then "shift-" else "") ++
  (if meta then "meta-" else "")

/-- `normalizeKeystroke` from src/keystrokes.ts; a thrown
`Invalid Keystroke` error is `none`. -/
def normalizeKeystroke (keystroke : String) : Option String :=
  let tokens := tokenize (strLower keystroke)
  match runLoop (tokens.length == 1) initNState tokens with
  | none => none
  | some st =>
    if st.key = "" then none
    else some (modString st.ctrl st.alt st.shift st.meta ++ st.key)

example : normalizeKeystroke "Ctrl-X" = some "ctrl-x" := by decide
example : normalizeKeystroke "shift-Ctrl-x" = some "ctrl-shift-x" := by decide
example : normalizeKeystroke "ctrl--" = some "ctrl--" := by decide
example : normalizeKeystroke "-" = some "-" := by decide
example : normalizeKeystroke "ctrl-ctrl" = none := by decide
example : normalizeKeystroke "x-y" = none := by decide
example : normalizeKeystroke "ctrl" = none := by decide
example : keystrokeForKeydownEvent ⟨true, false, false, false, 75, [], 0⟩ = "ctrl-k" := by decide
example : keystrokeForKeydownEvent ⟨true, false, false, false, 7, [], 0⟩ = "ctrl-" := by decide

/-- The four modifier token names of src/keystrokes.ts. -/
def M4 : List String := ["alt", "ctrl", "meta", "shift"]

/-- Join tokens with single dashes: the textual form of a keystroke made
of the given modifier tokens followed by a primary key token. -/
def dashJoin : List String → String
  | [] => ""
  | [s] => s
  | s :: t :: rest => s ++ "-" ++ dashJoin (t :: rest)

/-- The token list produced by tokenizing a modifier sequence: each
modifier followed by its dash separator token. -/
def modToks : List String → List String
  | [] => []
  | m :: rest => m :: "-" :: modToks rest

/-- Read the loop flag corresponding to a modifier name. -/
def flagOf (m : String) (st : NState) : Bool :=
  if m = "alt" then st.alt
  else if m = "ctrl" then st.ctrl
  else if m = "meta" then st.meta
  else if m = "shift" then st.shift
  else false

/-- The loop state after consuming a modifier token sequence. -/
def stateAfter (mods : List String) (st : NState) : NState :=
  { st with
    sep := if mods.isEmpty then st.sep else true,
    alt := st.alt || mods.contains "alt",
    ctrl := st.ctrl || mods.contains "ctrl",
    meta := st.meta || mods.contains "meta",
    shift := st.shift || mods.contains "shift" }

/-- The possible primary keys of a successful normalization: the lone
dash, or a table key that is not a modifier name. -/
def KeyGood (k : String) : Prop :=
  k = "-" ∨ (KEYS.contains k = true ∧ k ≠ "alt" ∧ k ≠ "ctrl" ∧
    k ≠ "meta" ∧ k ≠ "shift" ∧ k ≠ "-")

/-- The canonical modifier list matching the output order of
`modString` (ctrl, alt, shift, meta). -/
def canonMods (ctrl alt shift meta : Bool) : List String :=
  (if ctrl then ["ctrl"] else []) ++ (if alt then ["alt"] else []) ++
  (if shift then ["shift"] else []) ++ (if meta then ["meta"] else [])

end Keystrokes

namespace Keyboard

/-- Whitespace-run splitter worker for `keystroke.trim().split(/\s+/)`. -/
def wsAux : List Char → List Char → List String
  | [], acc => if acc.isEmpty then [] else [String.mk acc.reverse]
  | c :: cs, acc =>
    if c.isWhitespace then
      (if acc.isEmpty then [] else [String.mk acc.reverse]) ++ wsAux cs []
    else wsAux cs (c :: acc)

/-- JavaScript `trim`: drop whitespace from both ends. -/
def strTrim (s : String) : String :=
  ⟨((s.data.dropWhile Char.isWhitespace).reverse.dropWhile Char.isWhitespace).reverse⟩

/-- `keystroke.trim().split(/\s+/)`: on the empty trimmed string the
JavaScript split yields `[""]`, otherwise the maximal non-space runs. -/
def splitWs (s : String) : List String :=
  let t := strTrim s
  if t = "" then [""] else wsAux t.data []

/-- The mutable locals of the `normalizeKeystroke` loop in
src/keyboard.ts: the keycap seen so far and one flag per modifier. -/
structure KState where
  keycap : String
  alt : Bool
  cmd : Bool
  ctrl : Bool
  shift : Bool
deriving DecidableEq, Repr

/-- `throwKeystrokeError` from src/keyboard.ts. -/
def keystrokeError (keystroke message : String) : Except String KState :=
  .error ("invalid keystroke: " ++ keystroke ++ " (" ++ message ++ ")")

/-- The token loop of `normalizeKeystroke` (src/keyboard.ts lines
126-175); the layout is its `isValidKeycap` predicate and `isMac`
models the `IS_MAC` platform flag. -/
def kLoop (isValidKeycap : String → Bool) (isMac : Bool) (keystroke : String) :
    KState → List String → Except String KState
  | st, [] => .ok st
  | st, tok :: rest =>
    let token := if tok = "Accel" then (if isMac then "Cmd" else "Ctrl") else tok
    if token = "Alt" then
      if st.alt then keystrokeError keystroke "`Alt` specified in duplicate"
      else if st.keycap ≠ "" then keystrokeError keystroke "`Alt` follows primary key"
      else kLoop isValidKeycap isMac keystroke { st with alt := true } rest
    else if token = "Cmd" then
      if st.cmd then keystrokeError keystroke "`Cmd` specified in duplicate"
      else if st.keycap ≠ "" then keystrokeError keystroke "`Cmd` follows primary key"
      else if !isMac then keystrokeError keystroke "`Cmd` used on non-Mac platform"
      else kLoop isValidKeycap isMac keystroke { st with cmd := true } rest
    else if token = "Ctrl" then
      if st.ctrl then keystrokeError keystroke "`Ctrl` specified in duplicate"
      else if st.keycap ≠ "" then keystrokeError keystroke "`Ctrl` follows primary key"
      else kLoop isValidKeycap isMac keystroke { st with ctrl := true } rest
    else if token = "Shift" then
      if st.shift then keystrokeError keystroke "`Shift` specified in duplicate"
      else if st.keycap ≠ "" then keystrokeError keystroke "`Shift` follows primary key"
      else kLoop isValidKeycap isMac keystroke { st with shift := true } rest
    else
      if st.keycap ≠ "" then keystrokeError keystroke "primary key specified in duplicate"
      else if !(isValidKeycap token) then keystrokeError keystroke "invalid primary key"
      else kLoop isValidKeycap isMac keystroke { st with keycap := token } rest

/-- `normalizeKeystroke` from src/keyboard.ts.  NOTE: the final test is
a faithful translation of line 176, `if (keycap) { throwKeystrokeError
(keystroke, 'primary key not specified'); }` — it errors when a keycap
IS present, although its message says the opposite. -/
def normalizeKeystroke (isValidKeycap : String → Bool) (isMac : Bool)
    (keystroke : String) : Except String String :=
  match kLoop isValidKeycap isMac keystroke ⟨"", false, false, false, false⟩
      (splitWs keystroke) with
  | .error e => .error e
  | .ok st =>
    if st.keycap ≠ "" then
      .error ("invalid keystroke: " ++ keystroke ++ " (primary key not specified)")
    else
      .ok ((if st.cmd then "Cmd " else "") ++
           (if st.ctrl then "Ctrl " else "") ++
           (if st.alt then "Alt " else "") ++
           (if st.shift then "Shift " else "") ++ st.keycap)

example : normalizeKeystroke (fun k => k == "X") false "Ctrl X" =
    .error "invalid keystroke: Ctrl X (primary key not specified)" := by rfl
example : normalizeKeystroke (fun k => k == "X") false "Ctrl" = .ok "Ctrl " := by rfl
example : normalizeKeystroke (fun k => k == "X") false "Ctrl Ctrl X" =
    .error "invalid keystroke: Ctrl Ctrl X (`Ctrl` specified in duplicate)" := by rfl

end Keyboard

namespace Manager

/-- `IKeyBinding` from src/manager.ts: the handler function is an opaque
identifier, with `none` modelling a null handler. -/
structure IKeyBinding where
  selector : String
  sequence : List String
  handler : Option Nat
deriving DecidableEq, Repr

/-- `IExBinding` from src/manager.ts.  `oid` models JavaScript object
reference identity: every object produced by `createExBinding` is a
fresh reference, modelled by a fresh allocation number. -/
structure ExBinding where
  oid : Nat
  selector : String
  sequence : List String
  handler : Nat
  specificity : Nat
deriving DecidableEq, Repr

/-- `createExBinding` from src/manager.ts.  The selector validator and
specificity calculator are the clear-cut collaborators, passed as
parameters; the `oid` field is assigned later by `add`. -/
def createExBinding (isValidSel : String → Bool) (specOf : String → Nat)
    (binding : IKeyBinding) : Option ExBinding :=
  if !(isValidSel binding.selector) then none
  else if binding.sequence.length = 0 then none
  else if binding.handler.isNone then none
  else match binding.sequence.mapM Keystrokes.normalizeKeystroke with
    | none => none
    | some sequence =>
      some ⟨0, binding.selector, sequence, binding.handler.getD 0,
            specOf binding.selector⟩

/-- The `SequenceMatch` enum from src/manager.ts. -/
inductive SequenceMatch where
  | noneM
  | exactM
  | partialM
deriving DecidableEq, Repr

/-- The index loop of `matchSequence`: pairwise keystroke comparison up
to the length of the pending sequence (the second argument). -/
def seqCmpLoop : List String → List String → Bool
  | _, [] => true
  | [], _ :: _ => false
  | b :: bs, s :: ss => b == s && seqCmpLoop bs ss

/-- `matchSequence` from src/manager.ts lines 295-308. -/
def matchSequence (exb : ExBinding) (sequence : List String) : SequenceMatch :=
  if exb.sequence.length < sequence.length then .noneM
  else if !(seqCmpLoop exb.sequence sequence) then .noneM
  else if exb.sequence.length > sequence.length then .partialM
  else .exactM

/-- `IMatchResult` from src/manager.ts (`partialMatches` is its
`partial` array). -/
structure MatchResult where
  exact : List ExBinding
  partialMatches : List ExBinding
deriving DecidableEq, Repr

/-- `findSequenceMatches` from src/manager.ts lines 316-328: one pass
over the registry, pushing each binding on the list its match kind
selects. -/
def findSequenceMatches (bindings : List ExBinding) (sequence : List String) :
    MatchResult :=
  match bindings with
  | [] => ⟨[], []⟩
  | b :: rest =>
    let r := findSequenceMatches rest sequence
    match matchSequence b sequence with
    | .exactM => ⟨b :: r.exact, r.partialMatches⟩
    | .partialM => ⟨r.exact, b :: r.partialMatches⟩
    | .noneM => r

/-- The `result` accumulation loop of `findBestMatch`; `matchesSel` is
the selector-match collaborator and `target` a DOM element id. -/
def findBestLoop (matchesSel : Nat → String → Bool) (target : Nat) :
    List ExBinding → Option ExBinding → Option ExBinding
  | [], result => result
  | exb :: rest, result =>
    if !(matchesSel target exb.selector) then findBestLoop matchesSel target rest result
    else match result with
      | none => findBestLoop matchesSel target rest (some exb)
      | some r =>
        if r.specificity ≤ exb.specificity then
          findBestLoop matchesSel target rest (some exb)
        else findBestLoop matchesSel target rest (some r)

/-- `findBestMatch` from src/manager.ts lines 336-348. -/
def findBestMatch (matchesSel : Nat → String → Bool) (bindings : List ExBinding)
    (target : Nat) : Option ExBinding :=
  findBestLoop matchesSel target bindings none

/-- The `while (target)` walk of `dispatchBindings`, over the event's
propagation chain; stops at `currentTarget` or a dispatched binding. -/
def dispatchWalk (matchesSel : Nat → String → Bool) (bindings : List ExBinding)
    (currentTarget : Nat) : List Nat → Option ExBinding
  | [] => none
  | t :: rest =>
    match findBestMatch matchesSel bindings t with
    | some m => some m
    | none =>
      if t = currentTarget then none
      else dispatchWalk matchesSel bindings currentTarget rest

/-- `dispatchBindings` from src/manager.ts lines 358-373; the returned
binding is the one whose handler gets invoked (`none`: no handler ran). -/
def dispatchBindings (matchesSel : Nat → String → Bool) (bindings : List ExBinding)
    (ev : KeyEvent) : Option ExBinding :=
  dispatchWalk matchesSel bindings ev.currentTarget ev.path

/-- The private state of a `KeymapManager` instance.  `timer : Bool`
models `_timer !== 0` (a live `setTimeout` handle); `nextOid` is the
allocation counter backing object identity of extended bindings. -/
structure ManagerState where
  timer : Bool
  sequence : List String
  bindings : List ExBinding
  exactData : Option (List ExBinding × KeyEvent)
  nextOid : Nat
deriving DecidableEq, Repr

/-- A freshly constructed `KeymapManager`. -/
def initialState : ManagerState := ⟨false, [], [], none, 0⟩

/-- `_clearPendingState` from src/manager.ts lines 183-187 (which also
runs `_clearTimer`). -/
def clearPendingState (st : ManagerState) : ManagerState :=
  { st with timer := false, exactData := none, sequence := [] }

/-- The body of `processKeydownEvent` after the empty-keystroke bail:
push the keystroke, match, and act on the three match outcomes
(src/manager.ts lines 116-151). -/
def stepKeystroke (matchesSel : Nat → String → Bool) (keystroke : String)
    (ev : KeyEvent) (st : ManagerState) : ManagerState × Option ExBinding :=
  let st1 := { st with sequence := st.sequence ++ [keystroke] }
  let mr := findSequenceMatches st1.bindings st1.sequence
  if mr.exact.isEmpty && mr.partialMatches.isEmpty then
    (clearPendingState st1, none)
  else if mr.partialMatches.isEmpty then
    (clearPendingState st1, dispatchBindings matchesSel mr.exact ev)
  else
    let st2 := if mr.exact.isEmpty then st1
               else { st1 with exactData := some (mr.exact, ev) }
    ({ st2 with timer := true }, none)

/-- `processKeydownEvent` from src/manager.ts lines 107-151; the second
component is the binding whose handler was invoked, if any. -/
def processKeydownEvent (matchesSel : Nat → String → Bool) (ev : KeyEvent)
    (st : ManagerState) : ManagerState × Option ExBinding :=
  let keystroke := Keystrokes.keystrokeForKeydownEvent ev
  if keystroke = "" then (st, none)
  else stepKeystroke matchesSel keystroke ev st

/-- `_onPendingTimeout` from src/manager.ts lines 192-198. -/
def onPendingTimeout (matchesSel : Nat → String → Bool) (st : ManagerState) :
    ManagerState × Option ExBinding :=
  let st' := { st with timer := false, exactData := none, sequence := [] }
  match st.exactData with
  | some (ex, ev) => (st', dispatchBindings matchesSel ex ev)
  | none => (st', none)

/-- Assign fresh allocation identities to newly created ex bindings. -/
def tagFrom : Nat → List ExBinding → List ExBinding
  | _, [] => []
  | n, b :: rest => { b with oid := n } :: tagFrom (n + 1) rest

/-- `add` from src/manager.ts lines 79-92: convert, drop the invalid
entries, append, and return the captured array backing the disposable. -/
def add (isValidSel : String → Bool) (specOf : String → Nat)
    (bindings : List IKeyBinding) (st : ManagerState) :
    ManagerState × List ExBinding :=
  let exbArray := tagFrom st.nextOid
    (bindings.filterMap (createExBinding isValidSel specOf))
  ({ st with bindings := st.bindings ++ exbArray,
             nextOid := st.nextOid + exbArray.length },
   exbArray)

/-- `_removeBindings` from src/manager.ts lines 156-158: keep exactly
the registry entries that are not (reference-)contained in the captured
array. -/
def removeBindings (array : List ExBinding) (st : ManagerState) : ManagerState :=
  { st with bindings :=
      st.bindings.filter (fun exb => !(array.any (fun b => b.oid == exb.oid))) }

/-- Forget the allocation identity of an extended binding. -/
def stripOid (b : Manager.ExBinding) : Manager.ExBinding :=
  { b with oid := 0 }

/-- States of one `KeymapManager` instance reachable from construction
by any interleaving of keydown processing, ambiguity-timer firings
(which only occur while the timer is armed), binding additions and
disposals. -/
inductive Reachable : ManagerState → Prop where
  | init : Reachable initialState
  | keydown (matchesSel : Nat → String → Bool) (ev : KeyEvent) {st : ManagerState} :
      Reachable st → Reachable (processKeydownEvent matchesSel ev st).1
  | timeout (matchesSel : Nat → String → Bool) {st : ManagerState} :
      Reachable st → st.timer = true → Reachable (onPendingTimeout matchesSel st).1
  | addB (isValidSel : String → Bool) (specOf : String → Nat)
      (bs : List IKeyBinding) {st : ManagerState} :
      Reachable st → Reachable (add isValidSel specOf bs st).1
  | removeB (array : List ExBinding) {st : ManagerState} :
      Reachable st → Reachable (removeBindings array st)

end Manager

namespace Fixtures

/-- A selector-match collaborator under which every selector matches
every element (the behaviour of the selector "*"). -/
def msAll : Nat → String → Bool := fun _ _ => true

/-- A registered binding for the single-keystroke sequence Ctrl+K. -/
def bA : Manager.ExBinding := ⟨0, "*", ["ctrl-k"], 10, 1⟩

/-- A registered binding for the chord Ctrl+K Ctrl+L. -/
def bAB : Manager.ExBinding := ⟨1, "*", ["ctrl-k", "ctrl-l"], 11, 1⟩

/-- A keydown event for Ctrl+K on element 0. -/
def evK : KeyEvent := ⟨true, false, false, false, 75, [0], 0⟩

/-- A keydown event for Ctrl+L on element 0. -/
def evL : KeyEvent := ⟨true, false, false, false, 76, [0], 0⟩

end Fixtures

/-- C1: for a keydown whose keystroke is non-empty: with no exact and no
partial matches against the buffered sequence, `processKeydownEvent`
clears all pending state (timer, buffer, remembered exact data) and
invokes no binding; with exact matches but no partial matches, it clears
all pending state and dispatches the exact match set immediately with
the triggering event. -/
theorem c1_process_resolves_without_partial
    (matchesSel : Nat → String → Bool) (ev : KeyEvent)
    (st : Manager.ManagerState) (mr : Manager.MatchResult)
    (hks : Keystrokes.keystrokeForKeydownEvent ev ≠ "")
    (hmr : mr = Manager.findSequenceMatches st.bindings
      (st.sequence ++ [Keystrokes.keystrokeForKeydownEvent ev])) :
    (mr.exact = [] ∧ mr.partialMatches = [] →
      Manager.processKeydownEvent matchesSel ev st =
        ({ st with timer := false, sequence := [], exactData := none }, none)) ∧
    (mr.exact ≠ [] ∧ mr.partialMatches = [] →
      Manager.processKeydownEvent matchesSel ev st =
        ({ st with timer := false, sequence := [], exactData := none },
          Manager.dispatchBindings matchesSel mr.exact ev)) := by
  subst hmr
  constructor
  · rintro ⟨he, hp⟩
    simp [Manager.processKeydownEvent, Manager.stepKeystroke,
      Manager.clearPendingState, hks, he, hp]
  · rintro ⟨he, hp⟩
    simp [Manager.processKeydownEvent, Manager.stepKeystroke,
      Manager.clearPendingState, hks, hp, List.isEmpty_iff, he]

/-- Witness for C1: a concrete Ctrl+K keydown against an empty registry
clears the (pending) state with no dispatch. -/
theorem c1_process_resolves_without_partial_witness :
    Manager.processKeydownEvent Fixtures.msAll Fixtures.evK
      ⟨true, ["x"], [], none, 3⟩ =
      (⟨false, [], [], none, 3⟩, none) := by
  have h := c1_process_resolves_without_partial Fixtures.msAll Fixtures.evK
    ⟨true, ["x"], [], none, 3⟩ _ (by decide) rfl
  exact h.1 (by constructor <;> rfl)

/-- C2: when the ambiguity timer fires, `_onPendingTimeout` clears all
pending state; if an exact-match set was remembered it is dispatched
with the keyboard event that originally produced it, and otherwise no
binding is invoked. -/
theorem c2_timeout_dispatches_remembered_exact
    (matchesSel : Nat → String → Bool) (st : Manager.ManagerState)
    (ex : List Manager.ExBinding) (ev : KeyEvent) :
    (st.exactData = some (ex, ev) →
      Manager.onPendingTimeout matchesSel st =
        ({ st with timer := false, sequence := [], exactData := none },
          Manager.dispatchBindings matchesSel ex ev)) ∧
    (st.exactData = none →
      Manager.onPendingTimeout matchesSel st =
        ({ st with timer := false, sequence := [], exactData := none }, none)) := by
  constructor <;> intro h <;> simp [Manager.onPendingTimeout, h]

/-- Witness for C2: a concrete pending state whose remembered exact set
is dispatched with its remembered event when the timer fires. -/
theorem c2_timeout_dispatches_remembered_exact_witness :
    Manager.onPendingTimeout Fixtures.msAll
      ⟨true, ["ctrl-k"], [Fixtures.bA, Fixtures.bAB],
        some ([Fixtures.bA], Fixtures.evK), 2⟩ =
      (⟨false, [], [Fixtures.bA, Fixtures.bAB], none, 2⟩, some Fixtures.bA) := by
  have h := (c2_timeout_dispatches_remembered_exact Fixtures.msAll
    ⟨true, ["ctrl-k"], [Fixtures.bA, Fixtures.bAB],
      some ([Fixtures.bA], Fixtures.evK), 2⟩ [Fixtures.bA] Fixtures.evK).1 rfl
  rw [h]
  decide

/-- The pairwise comparison loop succeeds exactly when the pending
sequence is no longer than the binding sequence and equals its prefix. -/
theorem seqCmpLoop_iff (bs s : List String) :
    Manager.seqCmpLoop bs s = true ↔
      s.length ≤ bs.length ∧ bs.take s.length = s := by
  induction s generalizing bs with
  | nil => simp [Manager.seqCmpLoop]
  | cons x xs ih =>
    cases bs with
    | nil => simp [Manager.seqCmpLoop]
    | cons b bs' =>
      simp [Manager.seqCmpLoop, ih, Nat.succ_le_succ_iff]
      constructor
      · rintro ⟨hb, hl, ht⟩
        exact ⟨hl, hb, ht⟩
      · rintro ⟨hl, hb, ht⟩
        exact ⟨hb, hl, ht⟩

/-- A take-prefix equation forces the length bound. -/
theorem take_eq_imp_le {bs s : List String} (h : bs.take s.length = s) :
    s.length ≤ bs.length := by
  have := congrArg List.length h
  simp [List.length_take] at this
  omega

/-- `findSequenceMatches` returns the exact-classified and the
partial-classified bindings as two registry-order filters. -/
theorem findSequenceMatches_filter (bs : List Manager.ExBinding) (s : List String) :
    (Manager.findSequenceMatches bs s).exact =
      bs.filter (fun b => Manager.matchSequence b s == .exactM) ∧
    (Manager.findSequenceMatches bs s).partialMatches =
      bs.filter (fun b => Manager.matchSequence b s == .partialM) := by
  induction bs with
  | nil => exact ⟨rfl, rfl⟩
  | cons b rest ih =>
    unfold Manager.findSequenceMatches
    cases h : Manager.matchSequence b s <;>
      simp [List.filter_cons, h, ih.1, ih.2]

/-- Closed-form characterization of `matchSequence`: prefix equality up
to the pending length decides match/no-match, and the length comparison
decides exact versus partial. -/
theorem matchSequence_eq (b : Manager.ExBinding) (s : List String) :
    Manager.matchSequence b s =
      (if b.sequence.take s.length = s then
        (if s.length < b.sequence.length then .partialM else .exactM)
       else .noneM) := by
  have hloop := seqCmpLoop_iff b.sequence s
  unfold Manager.matchSequence
  by_cases h1 : b.sequence.length < s.length
  · have hnt : ¬ b.sequence.take s.length = s :=
      fun h => absurd (take_eq_imp_le h) (by omega)
    simp [h1, hnt]
  · by_cases hL : Manager.seqCmpLoop b.sequence s = true
    · have htake := (hloop.mp hL).2
      by_cases h3 : s.length < b.sequence.length
      · simp [h1, hL, htake, h3]
      · simp [h1, hL, htake, h3]
    · have hnt : ¬ b.sequence.take s.length = s := by
        intro h
        exact hL (hloop.mpr ⟨by omega, h⟩)
      simp only [Bool.not_eq_true] at hL
      simp [h1, hL, hnt]

/-- C3: for a non-empty pending sequence, `matchSequence` classifies a
binding as no match when its sequence is shorter than the pending one or
some compared keystroke differs, exact when all compared keystrokes
match and the lengths are equal, and partial when all match and the
binding sequence is longer; `findSequenceMatches` returns exactly the
exact-classified and partial-classified bindings, in registry order. -/
theorem c3_matcher_classifies_and_partitions
    (b : Manager.ExBinding) (s : List String) (bs : List Manager.ExBinding)
    (hs : s ≠ []) :
    (Manager.matchSequence b s = .noneM ↔
      b.sequence.length < s.length ∨ b.sequence.take s.length ≠ s) ∧
    (Manager.matchSequence b s = .exactM ↔
      b.sequence.take s.length = s ∧ b.sequence.length = s.length) ∧
    (Manager.matchSequence b s = .partialM ↔
      b.sequence.take s.length = s ∧ s.length < b.sequence.length) ∧
    ((Manager.findSequenceMatches bs s).exact =
      bs.filter (fun b => Manager.matchSequence b s == .exactM)) ∧
    ((Manager.findSequenceMatches bs s).partialMatches =
      bs.filter (fun b => Manager.matchSequence b s == .partialM)) := by
  have hms := matchSequence_eq b s
  refine ⟨?_, ?_, ?_, (findSequenceMatches_filter bs s).1,
    (findSequenceMatches_filter bs s).2⟩ <;> rw [hms] <;> split_ifs with h h'
  all_goals simp_all
  all_goals first
    | omega
    | (intro hc; exact absurd (take_eq_imp_le hc) (by omega))
    | (have htl := take_eq_imp_le h; omega)

/-- Witness for C3: the chord binding Ctrl+K Ctrl+L partially matches
the non-empty pending sequence consisting of Ctrl+K alone. -/
theorem c3_matcher_classifies_and_partitions_witness :
    Manager.matchSequence Fixtures.bAB ["ctrl-k"] = .partialM :=
  ((c3_matcher_classifies_and_partitions Fixtures.bAB ["ctrl-k"]
    [Fixtures.bA, Fixtures.bAB] (by decide)).2.2.1).mpr (by decide)

/-- C4: with two registered bindings both matching the target element
(the later-registered one appearing later in the registry), the one with
the strictly higher selector specificity wins `findBestMatch`, ties go
to the more recently registered binding, and `dispatchBindings` on an
event targeting that element invokes exactly that winner. -/
theorem c4_higher_specificity_then_recency_wins
    (matchesSel : Nat → String → Bool) (b1 b2 : Manager.ExBinding)
    (target : Nat) (ev : KeyEvent) (rest : List Nat)
    (h1 : matchesSel target b1.selector = true)
    (h2 : matchesSel target b2.selector = true)
    (hpath : ev.path = target :: rest) :
    (b1.specificity < b2.specificity →
      Manager.findBestMatch matchesSel [b1, b2] target = some b2) ∧
    (b2.specificity < b1.specificity →
      Manager.findBestMatch matchesSel [b1, b2] target = some b1) ∧
    (b1.specificity = b2.specificity →
      Manager.findBestMatch matchesSel [b1, b2] target = some b2) ∧
    Manager.dispatchBindings matchesSel [b1, b2] ev =
      Manager.findBestMatch matchesSel [b1, b2] target := by
  have hbest : Manager.findBestMatch matchesSel [b1, b2] target =
      some (if b1.specificity ≤ b2.specificity then b2 else b1) := by
    by_cases hsp : b1.specificity ≤ b2.specificity
    · simp [Manager.findBestMatch, Manager.findBestLoop, h1, h2, hsp]
    · simp [Manager.findBestMatch, Manager.findBestLoop, h1, h2, hsp]
  refine ⟨?_, ?_, ?_, ?_⟩
  · intro h
    rw [hbest, if_pos (by omega)]
  · intro h
    rw [hbest, if_neg (by omega)]
  · intro h
    rw [hbest, if_pos (by omega)]
  · rw [Manager.dispatchBindings, hpath]
    unfold Manager.dispatchWalk
    rw [hbest]

/-- Witness for C4: two equal-specificity bindings matching element 0;
the later-registered one is found and invoked by dispatch. -/
theorem c4_higher_specificity_then_recency_wins_witness :
    Manager.findBestMatch Fixtures.msAll [Fixtures.bA, Fixtures.bAB] 0 =
      some Fixtures.bAB := by
  have h := c4_higher_specificity_then_recency_wins Fixtures.msAll
    Fixtures.bA Fixtures.bAB 0 Fixtures.evK [] rfl rfl rfl
  exact h.2.2.1 rfl

/-- C10: for a keydown whose key code is not in the key-code table: with
no modifier flag set, `keystrokeForKeydownEvent` returns the empty
string and `processKeydownEvent` leaves the whole manager state (buffer,
timer, remembered exact data, registry) unchanged with no dispatch; with
at least one modifier flag set, the keystroke is the non-empty
modifier-only prefix, and `processKeydownEvent` hands it to the ordinary
append-and-match step. -/
theorem c10_unknown_keycode_modifier_only
    (matchesSel : Nat → String → Bool) (ev : KeyEvent)
    (st : Manager.ManagerState)
    (hcode : Keystrokes.keyForKeyCode ev.keyCode = "") :
    (ev.ctrlKey = false ∧ ev.altKey = false ∧ ev.shiftKey = false ∧
        ev.metaKey = false →
      Keystrokes.keystrokeForKeydownEvent ev = "" ∧
      Manager.processKeydownEvent matchesSel ev st = (st, none)) ∧
    ((ev.ctrlKey || ev.altKey || ev.shiftKey || ev.metaKey) = true →
      Keystrokes.keystrokeForKeydownEvent ev ≠ "" ∧
      Keystrokes.keystrokeForKeydownEvent ev =
        (if ev.ctrlKey then "ctrl-" else "") ++
        (if ev.altKey then "alt-" else "") ++
        (if ev.shiftKey then "shift-" else "") ++
        (if ev.metaKey then "meta-" else "") ∧
      Manager.processKeydownEvent matchesSel ev st =
        Manager.stepKeystroke matchesSel
          (Keystrokes.keystrokeForKeydownEvent ev) ev st) := by
  constructor
  · rintro ⟨hc, ha, hs, hm⟩
    have hk : Keystrokes.keystrokeForKeydownEvent ev = "" := by
      simp [Keystrokes.keystrokeForKeydownEvent, hc, ha, hs, hm, hcode]
    exact ⟨hk, by simp [Manager.processKeydownEvent, hk]⟩
  · intro hmod
    have hk : Keystrokes.keystrokeForKeydownEvent ev =
        (if ev.ctrlKey then "ctrl-" else "") ++
        (if ev.altKey then "alt-" else "") ++
        (if ev.shiftKey then "shift-" else "") ++
        (if ev.metaKey then "meta-" else "") := by
      simp [Keystrokes.keystrokeForKeydownEvent, hcode]
    have hne : Keystrokes.keystrokeForKeydownEvent ev ≠ "" := by
      rw [hk]
      cases hc : ev.ctrlKey <;> cases ha : ev.altKey <;>
        cases hs : ev.shiftKey <;> cases hm : ev.metaKey <;>
        simp_all <;> decide
    exact ⟨hne, hk, by simp [Manager.processKeydownEvent, hne]⟩

/-- Witness for C10: a Ctrl-flagged keydown with unknown key code 7
yields the modifier-only keystroke "ctrl-" and goes through the normal
matching step. -/
theorem c10_unknown_keycode_modifier_only_witness :
    Keystrokes.keystrokeForKeydownEvent ⟨true, false, false, false, 7, [0], 0⟩ =
      "ctrl-" ∧
    Manager.processKeydownEvent Fixtures.msAll
        ⟨true, false, false, false, 7, [0], 0⟩ Manager.initialState =
      Manager.stepKeystroke Fixtures.msAll "ctrl-"
        ⟨true, false, false, false, 7, [0], 0⟩ Manager.initialState := by
  have h := (c10_unknown_keycode_modifier_only Fixtures.msAll
    ⟨true, false, false, false, 7, [0], 0⟩ Manager.initialState rfl).2 rfl
  have hk : Keystrokes.keystrokeForKeydownEvent
      ⟨true, false, false, false, 7, [0], 0⟩ = "ctrl-" :=
    h.2.1.trans (by decide)
  exact ⟨hk, by rw [h.2.2, hk]⟩

/-- C6: evaluation of the layout-aware `normalizeKeystroke` of
src/keyboard.ts at its final keycap check (source line 176, `if
(keycap)`): a well-formed keystroke with a layout-valid primary key is
rejected with the error `primary key not specified`, while a
modifier-only keystroke with no primary key at all is accepted. -/
theorem c6_keyboard_normalize_inverted_keycap_check :
    Keyboard.normalizeKeystroke (fun k => k == "X") false "Ctrl X" =
      .error "invalid keystroke: Ctrl X (primary key not specified)" ∧
    Keyboard.normalizeKeystroke (fun k => k == "X") false "X" =
      .error "invalid keystroke: X (primary key not specified)" ∧
    Keyboard.normalizeKeystroke (fun k => k == "X") false "Ctrl" =
      .ok "Ctrl " := ⟨rfl, rfl, rfl⟩

/-- Counterexample to C5 as stated: starting from a registry holding the
Ctrl+K binding and the Ctrl+K Ctrl+L chord, pressing Ctrl+K remembers
the exact set, disposing the Ctrl+K binding filters only the registry,
and the timer firing still invokes the removed binding's handler. -/
theorem c5_removed_binding_invoked_counterexample :
    (Manager.onPendingTimeout Fixtures.msAll
      (Manager.removeBindings [Fixtures.bA]
        (Manager.processKeydownEvent Fixtures.msAll Fixtures.evK
          ⟨false, [], [Fixtures.bA, Fixtures.bAB], none, 2⟩).1)).2 =
      some Fixtures.bA := by decide

/-- C5 (amended): removing bindings mid-chord never touches the pending
state (buffer, timer, remembered exact data) and the timeout dispatch
remains well-defined, dispatching the remembered exact set unchanged —
so a removed binding that is part of that set can still be invoked. -/
theorem c5_amended_removal_keeps_pending_dispatch
    (ms : Nat → String → Bool) (array : List Manager.ExBinding)
    (st : Manager.ManagerState) (ex : List Manager.ExBinding) (ev : KeyEvent)
    (h : st.exactData = some (ex, ev)) :
    (Manager.removeBindings array st).sequence = st.sequence ∧
    (Manager.removeBindings array st).timer = st.timer ∧
    (Manager.removeBindings array st).exactData = st.exactData ∧
    (Manager.onPendingTimeout ms (Manager.removeBindings array st)).2 =
      Manager.dispatchBindings ms ex ev := by
  refine ⟨rfl, rfl, rfl, ?_⟩
  simp [Manager.onPendingTimeout, Manager.removeBindings, h]

/-- Witness for the amended C5: the concrete mid-chord removal scenario,
where the timeout still dispatches the remembered set. -/
theorem c5_amended_removal_keeps_pending_dispatch_witness :
    (Manager.onPendingTimeout Fixtures.msAll
      (Manager.removeBindings [Fixtures.bA]
        ⟨true, ["ctrl-k"], [Fixtures.bA, Fixtures.bAB],
          some ([Fixtures.bA], Fixtures.evK), 2⟩)).2 =
      Manager.dispatchBindings Fixtures.msAll [Fixtures.bA] Fixtures.evK :=
  (c5_amended_removal_keeps_pending_dispatch Fixtures.msAll [Fixtures.bA]
    ⟨true, ["ctrl-k"], [Fixtures.bA, Fixtures.bAB],
      some ([Fixtures.bA], Fixtures.evK), 2⟩ [Fixtures.bA] Fixtures.evK
    rfl).2.2.2

/-- Tagging preserves the number of bindings. -/
theorem tagFrom_length (n : Nat) (l : List Manager.ExBinding) :
    (Manager.tagFrom n l).length = l.length := by
  induction l generalizing n with
  | nil => rfl
  | cons b rest ih => simp [Manager.tagFrom, ih]

/-- Every tagged binding receives an identity at least the start tag. -/
theorem tagFrom_oid_ge {n : Nat} {l : List Manager.ExBinding}
    {b : Manager.ExBinding} (h : b ∈ Manager.tagFrom n l) : n ≤ b.oid := by
  induction l generalizing n with
  | nil => simp [Manager.tagFrom] at h
  | cons x rest ih =>
    simp only [Manager.tagFrom, List.mem_cons] at h
    rcases h with h | h
    · subst h
      exact Nat.le_refl n
    · exact Nat.le_of_succ_le (ih h)

/-- Tagging changes nothing besides the allocation identity. -/
theorem tagFrom_map_strip (n : Nat) (l : List Manager.ExBinding) :
    (Manager.tagFrom n l).map Manager.stripOid = l.map Manager.stripOid := by
  induction l generalizing n with
  | nil => rfl
  | cons b rest ih => simp [Manager.tagFrom, Manager.stripOid, ih]

/-- A binding produced by `createExBinding` carries the placeholder
identity 0. -/
theorem createExBinding_oid {v : String → Bool} {sp : String → Nat}
    {b : Manager.IKeyBinding} {xb : Manager.ExBinding}
    (h : Manager.createExBinding v sp b = some xb) : xb.oid = 0 := by
  unfold Manager.createExBinding at h
  split_ifs at h
  rcases hm : b.sequence.mapM Keystrokes.normalizeKeystroke with - | seq <;>
    rw [hm] at h
  · cases h
  · cases h
    rfl

/-- Stripping identities is the identity on freshly created bindings. -/
theorem filterMap_create_strip (v : String → Bool) (sp : String → Nat)
    (bs : List Manager.IKeyBinding) :
    (bs.filterMap (Manager.createExBinding v sp)).map Manager.stripOid =
      bs.filterMap (Manager.createExBinding v sp) := by
  induction bs with
  | nil => rfl
  | cons b rest ih =>
    cases hc : Manager.createExBinding v sp b with
    | none => simp [List.filterMap_cons, hc, ih]
    | some xb =>
      have := createExBinding_oid hc
      simp [List.filterMap_cons, hc, ih, Manager.stripOid]
      cases xb
      simp_all

/-- C7: adding a batch with any mix of valid and invalid bindings
appends exactly the valid ones, converted in batch order; the captured
disposal array removes exactly those bindings and no others, restoring
the prior registry; and removing the same array twice is a no-op the
second time. -/
theorem c7_add_appends_valid_and_disposal_exact
    (v : String → Bool) (sp : String → Nat) (bs : List Manager.IKeyBinding)
    (st : Manager.ManagerState)
    (hwf : ∀ b ∈ st.bindings, b.oid < st.nextOid) :
    (Manager.add v sp bs st).1.bindings =
      st.bindings ++ (Manager.add v sp bs st).2 ∧
    (Manager.add v sp bs st).2.map Manager.stripOid =
      bs.filterMap (Manager.createExBinding v sp) ∧
    (Manager.add v sp bs st).2.length =
      (bs.filterMap (Manager.createExBinding v sp)).length ∧
    (Manager.removeBindings (Manager.add v sp bs st).2
        (Manager.add v sp bs st).1).bindings = st.bindings ∧
    (∀ st2, Manager.removeBindings (Manager.add v sp bs st).2
        (Manager.removeBindings (Manager.add v sp bs st).2 st2) =
      Manager.removeBindings (Manager.add v sp bs st).2 st2) := by
  refine ⟨rfl, ?_, ?_, ?_, ?_⟩
  · show (Manager.tagFrom st.nextOid _).map Manager.stripOid = _
    rw [tagFrom_map_strip, filterMap_create_strip]
  · exact tagFrom_length _ _
  · show (Manager.removeBindings _ _).bindings = st.bindings
    simp only [Manager.removeBindings, Manager.add, List.filter_append]
    have hold : st.bindings.filter (fun exb =>
        !((Manager.add v sp bs st).2.any (fun b => b.oid == exb.oid))) =
        st.bindings := by
      apply List.filter_eq_self.mpr
      intro a ha
      simp only [Bool.not_eq_true', List.any_eq_false, beq_iff_eq]
      intro b hb
      have h1 := tagFrom_oid_ge hb
      have h2 := hwf a ha
      omega
    have hnew : (Manager.add v sp bs st).2.filter (fun exb =>
        !((Manager.add v sp bs st).2.any (fun b => b.oid == exb.oid))) = [] := by
      apply List.filter_eq_nil_iff.mpr
      intro a ha
      simp only [Bool.not_eq_true', Bool.not_eq_false, List.any_eq_true,
        beq_iff_eq]
      exact ⟨a, ha, rfl⟩
    simp only [Manager.add] at hold hnew ⊢
    rw [hold, hnew, List.append_nil]
  · intro st2
    simp only [Manager.removeBindings]
    congr 1
    apply List.filter_eq_self.mpr
    intro a ha
    exact (List.mem_filter.mp ha).2

/-- Witness for C7: a batch with one valid and one invalid binding adds
exactly the valid one; disposing removes it and re-disposing is a no-op. -/
theorem c7_add_appends_valid_and_disposal_exact_witness :
    (Manager.add (fun _ => true) (fun _ => 1)
      [⟨"*", ["Ctrl-K"], some 7⟩, ⟨"*", [], some 8⟩]
      Manager.initialState).2.length = 1 :=
  (c7_add_appends_valid_and_disposal_exact (fun _ => true) (fun _ => 1)
    [⟨"*", ["Ctrl-K"], some 7⟩, ⟨"*", [], some 8⟩]
    Manager.initialState (by simp [Manager.initialState])).2.2.1.trans
    (by decide)

/-- C9: in every reachable state of a `KeymapManager`, the buffered key
sequence is non-empty exactly when the ambiguity timer is armed, and a
remembered exact-match set exists only while the timer is armed. -/
theorem c9_pending_state_invariant (st : Manager.ManagerState)
    (h : Manager.Reachable st) :
    (st.sequence ≠ [] ↔ st.timer = true) ∧
    (st.exactData.isSome = true → st.timer = true) := by
  induction h with
  | init => simp [Manager.initialState]
  | keydown ms ev hr ih =>
    rename_i st'
    by_cases hks : Keystrokes.keystrokeForKeydownEvent ev = ""
    · simpa [Manager.processKeydownEvent, hks] using ih
    · simp only [Manager.processKeydownEvent, if_neg hks,
        Manager.stepKeystroke, Manager.clearPendingState]
      split_ifs <;> simp
  | timeout ms hr ht ih =>
    rename_i st'
    cases hd : st'.exactData <;>
      simp [Manager.onPendingTimeout, hd]
  | addB v sp bs hr ih =>
    simpa [Manager.add] using ih
  | removeB array hr ih =>
    simpa [Manager.removeBindings] using ih

/-- Witness for C9: the invariant holds at the freshly constructed
manager state. -/
theorem c9_pending_state_invariant_witness :
    (Manager.initialState.sequence ≠ [] ↔ Manager.initialState.timer = true) ∧
    (Manager.initialState.exactData.isSome = true →
      Manager.initialState.timer = true) :=
  c9_pending_state_invariant Manager.initialState Manager.Reachable.init

namespace Keystrokes

/-- Consuming a dash-free character run only moves it into the token
accumulator. -/
theorem tokAux_run (w : List Char) (hw : '-' ∉ w) (cs acc : List Char) :
    tokAux (w ++ cs) acc = tokAux cs (w.reverse ++ acc) := by
  induction w generalizing acc with
  | nil => simp
  | cons c w' ih =>
    have hc : ¬ c = '-' := fun h => hw (h ▸ List.mem_cons_self c w')
    have hw' : '-' ∉ w' := fun h => hw (List.mem_cons_of_mem c h)
    simp only [List.cons_append]
    rw [show tokAux (c :: (w' ++ cs)) acc =
      (if c = '-' then tokFlush acc ++ "-" :: tokAux (w' ++ cs) []
       else tokAux (w' ++ cs) (c :: acc)) from rfl]
    rw [if_neg hc, ih hw']
    simp

/-- A dash at the head of the input flushes the accumulator and emits
the dash token. -/
theorem tokAux_dash (cs acc : List Char) :
    tokAux ('-' :: cs) acc = tokFlush acc ++ "-" :: tokAux cs [] := by
  simp [tokAux]

/-- Tokenizing a dash-free token, a dash, and a remainder yields the
token, the dash token, and the tokens of the remainder. -/
theorem tokenize_cat (t : String) (h1 : t.data ≠ []) (h2 : '-' ∉ t.data)
    (s : String) : tokenize (t ++ "-" ++ s) = t :: "-" :: tokenize s := by
  unfold tokenize
  rw [String.data_append, String.data_append]
  rw [show ("-" : String).data = ['-'] from rfl, List.append_assoc]
  rw [tokAux_run t.data h2, List.append_nil, List.singleton_append,
    tokAux_dash]
  have hne : (t.data.reverse).isEmpty = false := by
    simp [List.isEmpty_iff, h1]
  rw [tokFlush, if_neg (by simp [hne])]
  simp

/-- Tokenizing a non-empty dash-free string yields that one token. -/
theorem tokenize_single (k : String) (h1 : k.data ≠ []) (h2 : '-' ∉ k.data) :
    tokenize k = [k] := by
  unfold tokenize
  rw [show k.data = k.data ++ [] by simp, tokAux_run k.data h2]
  simp [tokAux, tokFlush, h1]

/-- The tokenizer yields no tokens only on no input. -/
theorem tokAux_eq_nil_iff (cs acc : List Char) :
    tokAux cs acc = [] ↔ (cs = [] ∧ acc = []) := by
  induction cs generalizing acc with
  | nil =>
    simp only [tokAux, tokFlush]
    split_ifs with h <;> simp_all
  | cons c cs' ih =>
    simp only [tokAux]
    split_ifs with h <;> simp [ih]

/-- Lower-casing distributes over string append. -/
theorem strLower_append (a b : String) :
    strLower (a ++ b) = strLower a ++ strLower b := by
  apply String.ext
  simp [strLower, String.data_append]

/-- Every key name of the table is already lower-case. -/
theorem KEYS_lower : ∀ k ∈ KEYS, strLower k = k := by decide

/-- Every key name of the table is the dash itself or non-empty and
dash-free. -/
theorem KEYS_shape : ∀ k ∈ KEYS, k = "-" ∨ (k.data ≠ [] ∧ '-' ∉ k.data) := by
  decide

/-- The modifier names are already lower-case. -/
theorem M4_lower : ∀ m ∈ M4, strLower m = m := by decide

/-- The modifier names are non-empty and dash-free. -/
theorem M4_shape : ∀ m ∈ M4, m.data ≠ [] ∧ '-' ∉ m.data := by decide

end Keystrokes

namespace Keystrokes

/-- Unfold `contains` over a cons cell. -/
theorem contains_cons (l : List String) (x y : String) :
    (y :: l).contains x = (x == y || l.contains x) := rfl

/-- One loop step on the token "alt". -/
theorem runLoop_alt_step (single : Bool) (st : NState) (ts : List String)
    (ha : st.alt = false) (hk : st.key = "") :
    runLoop single st ("alt" :: ts) =
      runLoop single { st with alt := true, sep := false } ts := by
  simp [runLoop, ha, hk]

/-- One loop step on the token "ctrl". -/
theorem runLoop_ctrl_step (single : Bool) (st : NState) (ts : List String)
    (hc : st.ctrl = false) (hk : st.key = "") :
    runLoop single st ("ctrl" :: ts) =
      runLoop single { st with ctrl := true, sep := false } ts := by
  simp [runLoop, hc, hk]

/-- One loop step on the token "meta". -/
theorem runLoop_meta_step (single : Bool) (st : NState) (ts : List String)
    (hm : st.meta = false) (hk : st.key = "") :
    runLoop single st ("meta" :: ts) =
      runLoop single { st with meta := true, sep := false } ts := by
  simp [runLoop, hm, hk]

/-- One loop step on the token "shift". -/
theorem runLoop_shift_step (single : Bool) (st : NState) (ts : List String)
    (hs : st.shift = false) (hk : st.key = "") :
    runLoop single st ("shift" :: ts) =
      runLoop single { st with shift := true, sep := false } ts := by
  simp [runLoop, hs, hk]

/-- One loop step on a separator dash that is not the last token. -/
theorem runLoop_sep_step (single : Bool) (st : NState) (ts : List String)
    (hk : st.key = "") (hts : ts.isEmpty = false) (hsep : st.sep = false)
    (hmod : hasMod st = true) :
    runLoop single st ("-" :: ts) =
      runLoop single { st with sep := true } ts := by
  simp [runLoop, hk, hts, hsep, hmod]

/-- Folding the "alt" flag into `stateAfter` over the remaining mods. -/
theorem stateAfter_alt (mods' : List String) (st : NState) :
    stateAfter mods' { st with alt := true, sep := true } =
      stateAfter ("alt" :: mods') st := by
  simp [stateAfter, contains_cons]

/-- Folding the "ctrl" flag into `stateAfter` over the remaining mods. -/
theorem stateAfter_ctrl (mods' : List String) (st : NState) :
    stateAfter mods' { st with ctrl := true, sep := true } =
      stateAfter ("ctrl" :: mods') st := by
  simp [stateAfter, contains_cons]

/-- Folding the "meta" flag into `stateAfter` over the remaining mods. -/
theorem stateAfter_meta (mods' : List String) (st : NState) :
    stateAfter mods' { st with meta := true, sep := true } =
      stateAfter ("meta" :: mods') st := by
  simp [stateAfter, contains_cons]

/-- Folding the "shift" flag into `stateAfter` over the remaining mods. -/
theorem stateAfter_shift (mods' : List String) (st : NState) :
    stateAfter mods' { st with shift := true, sep := true } =
      stateAfter ("shift" :: mods') st := by
  simp [stateAfter, contains_cons]

/-- Consuming a distinct modifier token sequence (each followed by its
dash separator) sets exactly the corresponding flags plus the separator
flag and hands the remaining tokens to the rest of the loop. -/
theorem runLoop_modToks (single : Bool) (mods : List String) (st : NState)
    (rest : List String) (hm : ∀ m ∈ mods, m ∈ M4) (hnd : mods.Nodup)
    (hflag : ∀ m ∈ mods, flagOf m st = false) (hkey : st.key = "")
    (hrest : rest ≠ []) :
    runLoop single st (modToks mods ++ rest) =
      runLoop single (stateAfter mods st) rest := by
  induction mods generalizing st with
  | nil =>
    have h0 : stateAfter [] st = st := by simp [stateAfter]
    rw [h0]
    rfl
  | cons m mods' ih =>
    have hmem : m ∈ M4 := hm m (List.mem_cons_self m mods')
    have hm' : ∀ x ∈ mods', x ∈ M4 := fun x hx => hm x (List.mem_cons_of_mem m hx)
    have hnotin : m ∉ mods' := (List.nodup_cons.mp hnd).1
    have hnd' : mods'.Nodup := (List.nodup_cons.mp hnd).2
    have hflagm : flagOf m st = false := hflag m (List.mem_cons_self m mods')
    have hflag' : ∀ x ∈ mods', flagOf x st = false :=
      fun x hx => hflag x (List.mem_cons_of_mem m hx)
    have hne : (modToks mods' ++ rest).isEmpty = false := by
      cases mods' <;> simp [modToks, List.isEmpty_iff, hrest]
    simp only [M4, List.mem_cons, List.not_mem_nil, or_false] at hmem
    have hx4 : ∀ x ∈ mods',
        x = "alt" ∨ x = "ctrl" ∨ x = "meta" ∨ x = "shift" := by
      intro x hx
      have := hm' x hx
      simpa [M4] using this
    rcases hmem with h | h | h | h <;> subst h
    · have ha : st.alt = false := by simpa [flagOf] using hflagm
      simp only [modToks, List.cons_append]
      rw [runLoop_alt_step single st _ ha hkey]
      rw [runLoop_sep_step single { st with alt := true, sep := false } _ hkey
        hne rfl (by simp [hasMod])]
      rw [ih { st with alt := true, sep := true } hm' hnd' ?_ hkey]
      · rw [stateAfter_alt]
      · intro x hx
        have hxne : x ≠ "alt" := fun hh => hnotin (hh ▸ hx)
        have hfx := hflag' x hx
        rcases hx4 x hx with h | h | h | h <;> subst h
        · exact absurd rfl hxne
        · simpa [flagOf] using hfx
        · simpa [flagOf] using hfx
        · simpa [flagOf] using hfx
    · have hc : st.ctrl = false := by simpa [flagOf] using hflagm
      simp only [modToks, List.cons_append]
      rw [runLoop_ctrl_step single st _ hc hkey]
      rw [runLoop_sep_step single { st with ctrl := true, sep := false } _ hkey
        hne rfl (by simp [hasMod])]
      rw [ih { st with ctrl := true, sep := true } hm' hnd' ?_ hkey]
      · rw [stateAfter_ctrl]
      · intro x hx
        have hxne : x ≠ "ctrl" := fun hh => hnotin (hh ▸ hx)
        have hfx := hflag' x hx
        rcases hx4 x hx with h | h | h | h <;> subst h
        · simpa [flagOf] using hfx
        · exact absurd rfl hxne
        · simpa [flagOf] using hfx
        · simpa [flagOf] using hfx
    · have hmta : st.meta = false := by simpa [flagOf] using hflagm
      simp only [modToks, List.cons_append]
      rw [runLoop_meta_step single st _ hmta hkey]
      rw [runLoop_sep_step single { st with meta := true, sep := false } _ hkey
        hne rfl (by simp [hasMod])]
      rw [ih { st with meta := true, sep := true } hm' hnd' ?_ hkey]
      · rw [stateAfter_meta]
      · intro x hx
        have hxne : x ≠ "meta" := fun hh => hnotin (hh ▸ hx)
        have hfx := hflag' x hx
        rcases hx4 x hx with h | h | h | h <;> subst h
        · simpa [flagOf] using hfx
        · simpa [flagOf] using hfx
        · exact absurd rfl hxne
        · simpa [flagOf] using hfx
    · have hs : st.shift = false := by simpa [flagOf] using hflagm
      simp only [modToks, List.cons_append]
      rw [runLoop_shift_step single st _ hs hkey]
      rw [runLoop_sep_step single { st with shift := true, sep := false } _ hkey
        hne rfl (by simp [hasMod])]
      rw [ih { st with shift := true, sep := true } hm' hnd' ?_ hkey]
      · rw [stateAfter_shift]
      · intro x hx
        have hxne : x ≠ "shift" := fun hh => hnotin (hh ▸ hx)
        have hfx := hflag' x hx
        rcases hx4 x hx with h | h | h | h <;> subst h
        · simpa [flagOf] using hfx
        · simpa [flagOf] using hfx
        · simpa [flagOf] using hfx
        · exact absurd rfl hxne

/-- Unfold `dashJoin` over a cons with a non-empty tail. -/
theorem dashJoin_cons (m : String) (l : List String) (hl : l ≠ []) :
    dashJoin (m :: l) = m ++ "-" ++ dashJoin l := by
  cases l with
  | nil => exact absurd rfl hl
  | cons t rest => rfl

/-- Lower-casing a modifier-joined keystroke lower-cases only the key. -/
theorem strLower_dashJoin (mods : List String) (key : String)
    (hm : ∀ m ∈ mods, m ∈ M4) :
    strLower (dashJoin (mods ++ [key])) = dashJoin (mods ++ [strLower key]) := by
  induction mods with
  | nil => rfl
  | cons m mods' ih =>
    have hml : strLower m = m := M4_lower m (hm m (List.mem_cons_self m mods'))
    have hm' : ∀ x ∈ mods', x ∈ M4 :=
      fun x hx => hm x (List.mem_cons_of_mem m hx)
    rw [List.cons_append, dashJoin_cons m _ (by simp),
      List.cons_append, dashJoin_cons m _ (by simp)]
    rw [strLower_append, strLower_append, hml, ih hm']
    rfl

/-- Tokenizing a modifier-joined keystroke yields the modifier tokens
followed by the tokens of the key. -/
theorem tokenize_dashJoin (mods : List String) (key : String)
    (hm : ∀ m ∈ mods, m ∈ M4) :
    tokenize (dashJoin (mods ++ [key])) = modToks mods ++ tokenize key := by
  induction mods with
  | nil => rfl
  | cons m mods' ih =>
    have hms := M4_shape m (hm m (List.mem_cons_self m mods'))
    have hm' : ∀ x ∈ mods', x ∈ M4 :=
      fun x hx => hm x (List.mem_cons_of_mem m hx)
    rw [List.cons_append, dashJoin_cons m _ (by simp),
      tokenize_cat m hms.1 hms.2, ih hm']
    rfl

/-- The modifier token list is twice as long as the modifier list. -/
theorem modToks_length (mods : List String) :
    (modToks mods).length = 2 * mods.length := by
  induction mods with
  | nil => rfl
  | cons m mods' ih => simp [modToks, ih]; omega

/-- The `n === 1` test over the full token list, in terms of the
modifier list and the key tokens. -/
theorem single_token_test (mods : List String) (toks : List String) :
    ((modToks mods ++ toks).length == 1) =
      (mods.isEmpty && (toks.length == 1)) := by
  rw [Bool.eq_iff_iff]
  simp only [beq_iff_eq, Bool.and_eq_true, List.isEmpty_iff,
    List.length_append, modToks_length, ← List.length_eq_zero]
  omega

/-- No flag is set in the initial loop state. -/
theorem flagOf_init (m : String) : flagOf m initNState = false := by
  unfold flagOf initNState
  split_ifs <;> rfl

/-- A non-empty string tokenizes to a non-empty token list. -/
theorem tokenize_ne_nil (s : String) (h : s ≠ "") : tokenize s ≠ [] := by
  intro hc
  rcases (tokAux_eq_nil_iff s.data []).mp hc with ⟨hd, -⟩
  exact h (String.ext (hd.trans rfl))

/-- Evaluation of `normalizeKeystroke` on a keystroke assembled from
distinct modifier tokens and a non-empty key: the loop reaches the key
tokens in the state with exactly those modifier flags set. -/
theorem normalizeKeystroke_dashJoin (mods : List String) (key : String)
    (hm : ∀ m ∈ mods, m ∈ M4) (hnd : mods.Nodup) (hk : key ≠ "") :
    normalizeKeystroke (dashJoin (mods ++ [key])) =
      (match runLoop (mods.isEmpty && ((tokenize (strLower key)).length == 1))
          (stateAfter mods initNState) (tokenize (strLower key)) with
       | none => none
       | some st =>
         if st.key = "" then none
         else some (modString st.ctrl st.alt st.shift st.meta ++ st.key)) := by
  unfold normalizeKeystroke
  rw [strLower_dashJoin mods key hm, tokenize_dashJoin mods (strLower key) hm]
  simp only [single_token_test]
  have hkl : strLower key ≠ "" := by
    intro hc
    apply hk
    apply String.ext
    have := congrArg String.data hc
    simp [strLower] at this
    simp [this]
  rw [runLoop_modToks _ mods initNState _ hm hnd
    (fun m _ => flagOf_init m) rfl (tokenize_ne_nil _ hkl)]

/-- `contains` is invariant under permutation. -/
theorem contains_perm {l l2 : List String} (h : l.Perm l2) (x : String) :
    l.contains x = l2.contains x := by
  rw [Bool.eq_iff_iff]
  simp only [List.contains, List.elem_iff]
  exact h.mem_iff

/-- The loop state after the modifier tokens depends only on which
modifiers occur, not on their order. -/
theorem stateAfter_perm {mods mods' : List String} (h : mods.Perm mods')
    (st : NState) : stateAfter mods st = stateAfter mods' st := by
  have hlen := h.length_eq
  have he : mods.isEmpty = mods'.isEmpty := by
    rw [Bool.eq_iff_iff]
    simp only [List.isEmpty_iff, ← List.length_eq_zero, hlen]
  simp [stateAfter, he, h.mem_iff]

/-- Any primary key accepted by the loop is the lone dash or a table
key distinct from the modifier names. -/
theorem runLoop_keyGood (ts : List String) (single : Bool) (st st' : NState)
    (h : runLoop single st ts = some st')
    (h0 : st.key = "" ∨ KeyGood st.key) :
    st'.key = "" ∨ KeyGood st'.key := by
  induction ts generalizing st with
  | nil =>
    cases h
    exact h0
  | cons t rest ih =>
    simp only [runLoop] at h
    split_ifs at h with h1 h2 h3 h4 h5 h6 h7 h8 h9 h10 h11 h12 h13
    all_goals try exact Option.noConfusion h
    · exact ih _ h (Or.inr (Or.inl rfl))
    · exact ih _ h h0
    · exact ih _ h h0
    · exact ih _ h h0
    · exact ih _ h h0
    · exact ih _ h h0
    · refine ih _ h (Or.inr (Or.inr ?_))
      simp only [Bool.or_eq_true, Bool.not_eq_true', decide_eq_true_eq,
        not_or] at h13
      exact ⟨by simpa using h13.2, h5, h7, h9, h11, h1⟩

/-- The canonical output prefix is the dash-join of the canonical
modifier list. -/
theorem modString_dashJoin (c a s m : Bool) (k : String) :
    modString c a s m ++ k = dashJoin (canonMods c a s m ++ [k]) := by
  have d1 : ("ctrl-" : String).data = ['c', 't', 'r', 'l', '-'] := rfl
  have d2 : ("alt-" : String).data = ['a', 'l', 't', '-'] := rfl
  have d3 : ("shift-" : String).data = ['s', 'h', 'i', 'f', 't', '-'] := rfl
  have d4 : ("meta-" : String).data = ['m', 'e', 't', 'a', '-'] := rfl
  have d5 : ("ctrl" : String).data = ['c', 't', 'r', 'l'] := rfl
  have d6 : ("alt" : String).data = ['a', 'l', 't'] := rfl
  have d7 : ("shift" : String).data = ['s', 'h', 'i', 'f', 't'] := rfl
  have d8 : ("meta" : String).data = ['m', 'e', 't', 'a'] := rfl
  have d9 : ("-" : String).data = ['-'] := rfl
  have d0 : ("" : String).data = [] := rfl
  cases c <;> cases a <;> cases s <;> cases m <;>
    (apply String.ext
     simp [modString, canonMods, dashJoin, String.data_append,
       d1, d2, d3, d4, d5, d6, d7, d8, d9, d0])

/-- The canonical modifier list contains only modifier names. -/
theorem canonMods_sub (c a s m : Bool) :
    ∀ x ∈ canonMods c a s m, x ∈ M4 := by
  cases c <;> cases a <;> cases s <;> cases m <;> decide

/-- The canonical modifier list has no duplicates. -/
theorem canonMods_nodup (c a s m : Bool) : (canonMods c a s m).Nodup := by
  cases c <;> cases a <;> cases s <;> cases m <;> decide

/-- Loop state reached after the canonical modifier tokens. -/
theorem stateAfter_canon (c a s m : Bool) :
    stateAfter (canonMods c a s m) initNState =
      ⟨"", c || a || s || m, a, c, m, s⟩ := by
  cases c <;> cases a <;> cases s <;> cases m <;> decide

/-- Emptiness of the canonical modifier list. -/
theorem canonMods_isEmpty (c a s m : Bool) :
    (canonMods c a s m).isEmpty = !(c || a || s || m) := by
  cases c <;> cases a <;> cases s <;> cases m <;> decide

/-- One loop step consuming a lone table key that is not a modifier. -/
theorem runLoop_key_step (single : Bool) (st : NState) (k : String)
    (hk : st.key = "") (hcont : KEYS.contains k = true)
    (h1 : k ≠ "-") (h2 : k ≠ "alt") (h3 : k ≠ "ctrl") (h4 : k ≠ "meta")
    (h5 : k ≠ "shift") :
    runLoop single st [k] = some { st with key := k, sep := false } := by
  have hmem : k ∈ KEYS := by
    simpa [List.contains, List.elem_iff] using hcont
  simp [runLoop, hk, hcont, h1, h2, h3, h4, h5, hmem]

/-- One loop step consuming a final dash in separator position. -/
theorem runLoop_dash_last (single : Bool) (st : NState)
    (hk : st.key = "") (hcond : (single || st.sep) = true) :
    runLoop single st ["-"] = some { st with key := "-" } := by
  simp [runLoop, hk, hcond]

/-- A successful normalization yields the canonical prefix of the final
loop flags followed by a good primary key. -/
theorem normalize_success (x y : String)
    (hx : normalizeKeystroke x = some y) :
    ∃ stf : NState, stf.key ≠ "" ∧ KeyGood stf.key ∧
      y = modString stf.ctrl stf.alt stf.shift stf.meta ++ stf.key := by
  have hx' : (match runLoop ((tokenize (strLower x)).length == 1) initNState
      (tokenize (strLower x)) with
    | none => none
    | some st =>
      if st.key = "" then none
      else some (modString st.ctrl st.alt st.shift st.meta ++ st.key)) =
      some y := hx
  rcases hrl : runLoop ((tokenize (strLower x)).length == 1) initNState
      (tokenize (strLower x)) with - | stf
  · rw [hrl] at hx'
    exact Option.noConfusion hx'
  · rw [hrl] at hx'
    dsimp only at hx'
    by_cases hk : stf.key = ""
    · rw [if_pos hk] at hx'
      exact Option.noConfusion hx'
    · rw [if_neg hk] at hx'
      have kg := runLoop_keyGood _ _ _ _ hrl (Or.inl rfl)
      exact ⟨stf, hk, kg.resolve_left hk, (Option.some.inj hx').symm⟩

end Keystrokes

/-- C8: `normalizeKeystroke` of src/keystrokes.ts is idempotent on every
successfully normalized keystroke, and its result on a keystroke built
from distinct modifier tokens and a primary key token is invariant under
permuting the modifier tokens. -/
theorem c8_normalize_idempotent_and_order_invariant
    (x y key : String) (mods mods' : List String)
    (hx : Keystrokes.normalizeKeystroke x = some y)
    (hmods : ∀ m ∈ mods, m ∈ Keystrokes.M4)
    (hnd : mods.Nodup) (hperm : mods.Perm mods') (hkey : key ≠ "") :
    Keystrokes.normalizeKeystroke y = some y ∧
    Keystrokes.normalizeKeystroke (Keystrokes.dashJoin (mods' ++ [key])) =
      Keystrokes.normalizeKeystroke (Keystrokes.dashJoin (mods ++ [key])) := by
  constructor
  · obtain ⟨stf, hk, kg, hy⟩ := Keystrokes.normalize_success x y hx
    subst hy
    rw [Keystrokes.modString_dashJoin]
    rw [Keystrokes.normalizeKeystroke_dashJoin _ _
      (Keystrokes.canonMods_sub _ _ _ _) (Keystrokes.canonMods_nodup _ _ _ _)
      hk]
    rw [Keystrokes.stateAfter_canon]
    rcases kg with hdash | ⟨hcont, h2, h3, h4, h5, h1⟩
    · rw [hdash]
      rw [show Keystrokes.tokenize (Keystrokes.strLower "-") = ["-"] from rfl]
      rw [Keystrokes.runLoop_dash_last _ _ rfl ?_]
      · simp
        exact Keystrokes.modString_dashJoin _ _ _ _ "-"
      · rw [Keystrokes.canonMods_isEmpty]
        cases hf : (stf.ctrl || stf.alt || stf.shift || stf.meta) <;> simp
    · have hmem : stf.key ∈ Keystrokes.KEYS := by
        simpa [List.contains, List.elem_iff] using hcont
      have hlow : Keystrokes.strLower stf.key = stf.key :=
        Keystrokes.KEYS_lower stf.key hmem
      have hshape := (Keystrokes.KEYS_shape stf.key hmem).resolve_left h1
      rw [hlow, Keystrokes.tokenize_single stf.key hshape.1 hshape.2]
      rw [Keystrokes.runLoop_key_step _ _ stf.key rfl hcont h1 h2 h3 h4 h5]
      simp [hk]
      exact Keystrokes.modString_dashJoin _ _ _ _ stf.key
  · have hm' : ∀ z ∈ mods', z ∈ Keystrokes.M4 :=
      fun z hz => hmods z (hperm.mem_iff.mpr hz)
    have hnd' : mods'.Nodup := hperm.nodup_iff.mp hnd
    have he : mods.isEmpty = mods'.isEmpty := by
      rw [Bool.eq_iff_iff]
      simp only [List.isEmpty_iff, ← List.length_eq_zero, hperm.length_eq]
    rw [Keystrokes.normalizeKeystroke_dashJoin mods key hmods hnd hkey,
      Keystrokes.normalizeKeystroke_dashJoin mods' key hm' hnd' hkey,
      Keystrokes.stateAfter_perm hperm, he]

/-- Witness for C8: "shift-Ctrl-x" normalizes to "ctrl-shift-x", which
renormalizes to itself, and swapping the two modifier tokens in
"ctrl-shift-x" does not change the normalization result. -/
theorem c8_normalize_idempotent_and_order_invariant_witness :
    Keystrokes.normalizeKeystroke "ctrl-shift-x" = some "ctrl-shift-x" ∧
    Keystrokes.normalizeKeystroke
        (Keystrokes.dashJoin (["shift", "ctrl"] ++ ["x"])) =
      Keystrokes.normalizeKeystroke
        (Keystrokes.dashJoin (["ctrl", "shift"] ++ ["x"])) :=
  c8_normalize_idempotent_and_order_invariant "shift-Ctrl-x" "ctrl-shift-x"
    "x" ["ctrl", "shift"] ["shift", "ctrl"] (by decide) (by decide)
    (by decide) (by decide) (by decide)
